import Mathlib

set_option maxRecDepth 100000

/-!
Verification model of the pydantic-deep workspace layer.

The repository ships the agent factory (`pydantic_deep/agent.py`) and the todo
toolset (`pydantic_deep/toolsets/todo.py`) together with the test suite; the
backend modules (`pydantic_deep/backends/state.py`, `composite.py`) and the
skills toolset are referenced by the tests but their sources are not in the
tree, so they are modelled here from the specification (`spec.md`), with
dispatch details that the repository's own tests pin down noted in the doc
comments of the corresponding definitions.

All definitions are executable; file content is a `String`, manipulated
through helper functions on `List Char`.
-/

/-- Split a character list on newline characters; always returns at least one
chunk, and content without a trailing newline produces no empty tail chunk. -/
def splitOnNl : List Char → List (List Char)
  | [] => [[]]
  | c :: cs =>
    if c = '\n' then [] :: splitOnNl cs
    else
      match splitOnNl cs with
      | [] => [[c]]
      | l :: ls => (c :: l) :: ls

/-- Join character-list chunks with newline separators (inverse of `splitOnNl`). -/
def joinNl : List (List Char) → List Char
  | [] => []
  | [l] => l
  | l :: l' :: ls => l ++ '\n' :: joinNl (l' :: ls)

/-- String-level line split, matching Python `content.split("\n")`. -/
def splitLines (s : String) : List String := (splitOnNl s.data).map String.mk

/-- String-level join with `"\n"`, matching Python `"\n".join(lines)`. -/
def joinLines (ls : List String) : String := String.mk (joinNl (ls.map String.data))

/-- Decimal digit character for a value below ten. -/
def digitChar (d : Nat) : Char :=
  if d = 0 then '0' else if d = 1 then '1' else if d = 2 then '2'
  else if d = 3 then '3' else if d = 4 then '4' else if d = 5 then '5'
  else if d = 6 then '6' else if d = 7 then '7' else if d = 8 then '8'
  else if d = 9 then '9' else '?'

/-- Decimal digits, most significant first; structural recursion on a fuel
argument so that the kernel can evaluate it (the fuel `n + 1` always
suffices since the value shrinks by a factor of ten per step). -/
def natDigitsAux : Nat → Nat → List Char
  | 0, _ => []
  | fuel + 1, n =>
    if n < 10 then [digitChar n]
    else natDigitsAux fuel (n / 10) ++ [digitChar (n % 10)]

/-- Decimal digits of a natural number, most significant first. -/
def natDigits (n : Nat) : List Char := natDigitsAux (n + 1) n

/-- Decimal rendering of a natural number. -/
def natToStr (n : Nat) : String := String.mk (natDigits n)

/-- The right-aligned six-wide line-number gutter `"{n:>6}→"` followed by the text. -/
def gutterL (n : Nat) (text : List Char) : List Char :=
  List.replicate (6 - (natDigits n).length) ' ' ++ natDigits n ++ '→' :: text

def gutterStr (n : Nat) (text : String) : String := String.mk (gutterL n text.data)

/-- Strip a line-number gutter: drop everything up to and including the first `'→'`. -/
def stripGutter : List Char → List Char
  | [] => []
  | c :: cs => if c = '→' then cs else stripGutter cs

/-- Boolean substring test: `substrB needle hay` is true iff `needle` occurs
contiguously in `hay`. -/
def substrB : List Char → List Char → Bool
  | n, [] => n.isPrefixOf []
  | n, c :: t => n.isPrefixOf (c :: t) || substrB n t

/-- `strContains needle hay`: `needle` occurs contiguously in `hay`. -/
def strContains (needle hay : String) : Prop := substrB needle.data hay.data = true

instance (needle hay : String) : Decidable (strContains needle hay) := by
  unfold strContains
  infer_instance

/-- Association-list lookup keyed by strings (models Python dict lookup). -/
def alookup {α : Type} : List (String × α) → String → Option α
  | [], _ => none
  | (k, v) :: rest, key => if k = key then some v else alookup rest key

/-- Split a character list on `/` (the path-segment decomposition used by
`_validate_path`). -/
def splitOnSlash : List Char → List (List Char)
  | [] => [[]]
  | c :: cs =>
    if c = '/' then [] :: splitOnSlash cs
    else
      match splitOnSlash cs with
      | [] => [[c]]
      | l :: ls => (c :: l) :: ls

/-- Modelled from the spec (§4.1, `pydantic_deep/backends/state.py` is not in
the tree): `_validate_path` rejects `..` segments, leading `~`, and
drive-letter prefixes, returning an error string or `none`. -/
def _validate_path (path : String) : Option String :=
  if (splitOnSlash path.data).contains ['.', '.'] then
    some "Error: Path cannot contain .. segments"
  else if ['~'].isPrefixOf path.data then
    some "Error: Path cannot start with ~"
  else if isDriveLetterPath path.data then
    some "Error: Windows-style paths are not supported"
  else none
where
  isDriveLetterPath : List Char → Bool
    | c :: ':' :: _ => c.isAlpha
    | _ => false

/-- Modelled from the spec (§4.1): `_normalize_path` prepends `/` when missing
and strips a trailing `/` unless the whole path is `/`. -/
def _normalize_path (path : String) : String :=
  let p := if ['/'].isPrefixOf path.data then path else "/" ++ path
  if p ≠ "/" ∧ ['/'].isSuffixOf p.data then String.mk p.data.dropLast else p

/-- A stored file: its lines (content split on newlines). Timestamps from the
spec's FileRecord are omitted: no claim mentions them. -/
abbrev FileLines := List String

/-- Modelled from the spec (§4.2): the in-memory StateBackend, a mapping from
normalized path to file record, kept as an association list sorted by path so
that enumeration order is deterministic (spec: results ordered by path). -/
structure StateBackend where
  files : List (String × FileLines)
deriving DecidableEq

/-- Insert-or-replace keeping the store sorted by path. -/
def insertStore (fs : List (String × FileLines)) (k : String) (v : FileLines) :
    List (String × FileLines) :=
  match fs with
  | [] => [(k, v)]
  | (k', v') :: rest =>
    if k = k' then (k, v) :: rest
    else if k < k' then (k, v) :: (k', v') :: rest
    else (k', v') :: insertStore rest k v

/-- Result of a successful `write`. -/
structure WriteOk where
  path : String
  bytes : Nat
  lines : Nat
deriving DecidableEq

inductive WriteResult where
  | ok : WriteOk → WriteResult
  | error : String → WriteResult
deriving DecidableEq

/-- Modelled from the spec (§4.2 write): validate and normalize, split the
content on newlines (no trailing empty line for content lacking a trailing
newline), store the record, and report path, byte count and line count.
Byte count is modelled as character count (claims exercise ASCII content). -/
def StateBackend.write (st : StateBackend) (path content : String) :
    StateBackend × WriteResult :=
  match _validate_path path with
  | some e => (st, .error e)
  | none =>
    let np := _normalize_path path
    let ls := splitLines content
    (⟨insertStore st.files np ls⟩, .ok ⟨np, content.length, ls.length⟩)

/-- The offset-out-of-range error message of `read`; mentions both numbers. -/
def offsetErrMsg (offset lineCount : Nat) : String :=
  "Error: Offset " ++ (natToStr offset ++ (" exceeds file length (" ++ (natToStr lineCount ++ " lines)")))

/-- Render a run of lines with 1-based line-number gutters, first number `n`. -/
def renderFrom (n : Nat) : List String → List String
  | [] => []
  | l :: ls => gutterStr n l :: renderFrom (n + 1) ls

/-- Modelled from the spec (§4.2 read): validate, handle the missing-file and
offset-past-end errors, slice `lines[offset : offset+limit]`, render each line
as `"{n:>6}→{text}"`, join with newlines, and append a
`"... (N more lines)"` note when the slice omits tail lines. -/
def StateBackend.read (st : StateBackend) (path : String) (offset limit : Nat) : String :=
  match _validate_path path with
  | some e => e
  | none =>
    let np := _normalize_path path
    match alookup st.files np with
    | none => "Error: File not found: " ++ np
    | some ls =>
      if ls.length ≤ offset then offsetErrMsg offset ls.length
      else
        let slice := (ls.drop offset).take limit
        let rendered := joinLines (renderFrom (offset + 1) slice)
        let remaining := ls.length - (offset + slice.length)
        if remaining = 0 then rendered
        else rendered ++ ("\n... (" ++ (natToStr remaining ++ " more lines)"))

inductive EditResult where
  | ok : Nat → EditResult
  | error : String → EditResult
deriving DecidableEq

/-- Count non-overlapping occurrences of a nonempty pattern, leftmost-first;
structural recursion on fuel (one unit per character consumed, so fuel equal
to the list length always suffices). -/
def countOccurFuel (p : List Char) : Nat → List Char → Nat
  | _, [] => 0
  | 0, _ :: _ => 0
  | fuel + 1, c :: cs =>
    if p.isPrefixOf (c :: cs) then 1 + countOccurFuel p fuel (cs.drop (p.length - 1))
    else countOccurFuel p fuel cs

def countOccurAux (p c : List Char) : Nat := countOccurFuel p c.length c

/-- Count non-overlapping occurrences, matching Python `str.count` (the empty
pattern is counted once per position, `len + 1` in total). -/
def countOccur (p c : List Char) : Nat :=
  if p = [] then c.length + 1 else countOccurAux p c

/-- Replace every non-overlapping occurrence of `p` by `r`, leftmost-first;
fuelled like `countOccurFuel`. -/
def replaceAllFuel (p r : List Char) : Nat → List Char → List Char
  | _, [] => []
  | 0, c :: cs => c :: cs
  | fuel + 1, c :: cs =>
    if p.isPrefixOf (c :: cs) then r ++ replaceAllFuel p r fuel (cs.drop (p.length - 1))
    else c :: replaceAllFuel p r fuel cs

def replaceAllAux (p r c : List Char) : List Char := replaceAllFuel p r c.length c

/-- Replace all occurrences, matching Python `str.replace(p, r)` (an empty
pattern inserts `r` at every position). -/
def replaceAllL (p r c : List Char) : List Char :=
  if p = [] then r ++ (c.map (fun ch => ch :: r)).flatten else replaceAllAux p r c

/-- Replace the first occurrence of `p` by `r`. -/
def replaceFirstAux (p r : List Char) : List Char → List Char
  | [] => []
  | c :: cs =>
    if p.isPrefixOf (c :: cs) then r ++ cs.drop (p.length - 1)
    else c :: replaceFirstAux p r cs

/-- Replace the first occurrence, matching Python `str.replace(p, r, 1)`. -/
def replaceFirstL (p r c : List Char) : List Char :=
  if p = [] then r ++ c else replaceFirstAux p r c

/-- The ambiguity error message of `edit` for a pattern occurring `k > 1`
times; states the exact occurrence count. -/
def occursMsg (k : Nat) : String :=
  "Error: String appears " ++ ((natToStr k ++ " times") ++ " in file. Use replace_all=true to replace all occurrences, or provide a larger string with more surrounding context")

/-- Modelled from the spec (§4.2 edit): validate, reconstitute the content by
joining lines, count occurrences of `old_string`; 0 occurrences is the
`"String not found"` error, more than one without `replace_all` is an error
stating the count, otherwise substitute (first or all), re-split and store. -/
def StateBackend.edit (st : StateBackend) (path old_string new_string : String)
    (replace_all : Bool) : StateBackend × EditResult :=
  match _validate_path path with
  | some e => (st, .error e)
  | none =>
    let np := _normalize_path path
    match alookup st.files np with
    | none => (st, .error ("Error: File not found: " ++ np))
    | some ls =>
      let content := joinLines ls
      let k := countOccur old_string.data content.data
      if k = 0 then (st, .error "String not found")
      else if 1 < k ∧ replace_all = false then (st, .error (occursMsg k))
      else
        let newData : List Char :=
          if replace_all then replaceAllL old_string.data new_string.data content.data
          else replaceFirstL old_string.data new_string.data content.data
        (⟨insertStore st.files np (splitLines (String.mk newData))⟩, .ok k)

/-- A regex-grep match: path, 1-based line number, matching line text. -/
structure GrepMatch where
  path : String
  line_number : Nat
  line : String
deriving DecidableEq

/-- Grep either returns the match list or an error string (invalid regex,
invalid path); the two are distinguished structurally, mirroring the
list-versus-string union in the Python return type. -/
inductive GrepResult where
  | found : List GrepMatch → GrepResult
  | error : String → GrepResult
deriving DecidableEq

/-- Modelled from the spec (§4.2 grep_raw): regex compilation is abstracted to
a well-formedness scan of character classes, which is what the suite's invalid
pattern `"[invalid"` exercises; an unclosed `[` fails to compile. -/
def regexOk (pattern : String) : Bool :=
  scanClass pattern.data false
where
  scanClass : List Char → Bool → Bool
    | [], inClass => !inClass
    | c :: cs, inClass =>
      if c = '[' then scanClass cs true
      else if c = ']' then scanClass cs false
      else scanClass cs inClass

/-- Modelled from the spec: line matching, covering the literal-pattern
fragment the claims exercise (a line matches when the pattern occurs in it). -/
def lineMatches (pattern line : String) : Bool := substrB pattern.data line.data

def grepLines (pattern path : String) : Nat → List String → List GrepMatch
  | _, [] => []
  | n, l :: ls =>
    if lineMatches pattern l then ⟨path, n, l⟩ :: grepLines pattern path (n + 1) ls
    else grepLines pattern path (n + 1) ls

def grepFiles (pattern : String) (fs : List (String × FileLines)) : List GrepMatch :=
  (fs.map (fun pf => grepLines pattern pf.1 1 pf.2)).flatten

/-- Modelled from the spec (§4.2 grep_raw): invalid regex returns an error
string; a path naming a file scans that file, a directory path scans the
files under it, an absent path scans every file; matches carry 1-based line
numbers and are emitted in path order (the store is path-sorted). The
optional glob filter is not modelled: no claim exercises it. -/
def StateBackend.grep_raw (st : StateBackend) (pattern : String) (path : Option String) :
    GrepResult :=
  if regexOk pattern = false then .error ("Error: Invalid regex pattern: " ++ pattern)
  else
    match path with
    | none => .found (grepFiles pattern st.files)
    | some p =>
      match _validate_path p with
      | some e => .error e
      | none =>
        let np := _normalize_path p
        match alookup st.files np with
        | some ls => .found (grepLines pattern np 1 ls)
        | none =>
          if np = "/" then .found (grepFiles pattern st.files)
          else
            .found (grepFiles pattern
              (st.files.filter (fun pf => (np ++ "/").data.isPrefixOf pf.1.data)))

/-- A directory entry: name, logical path, directory flag and (for
directories) the immediate child count. Sizes and timestamps are omitted: no
claim mentions them. -/
structure DirEntry where
  name : String
  path : String
  is_dir : Bool
  child_count : Option Nat
deriving DecidableEq

/-- Deduplicate a list of strings, keeping first occurrences in order
(fuelled structural recursion; the list length is always enough fuel). -/
def dedupFuel : Nat → List String → List String
  | _, [] => []
  | 0, x :: _ => [x]
  | fuel + 1, x :: xs => x :: dedupFuel fuel (xs.filter (fun y => y ≠ x))

def dedup (l : List String) : List String := dedupFuel l.length l

/-- The name of the immediate child of directory `np` on the way to stored
path `q` (the first path segment of `q` below `np`). -/
def childNameOf (np q : String) : String :=
  let pre := if np = "/" then "/" else np ++ "/"
  String.mk ((q.data.drop pre.length).takeWhile (fun c => c != '/'))

/-- The last path segment of a normalized path. -/
def baseName (np : String) : String :=
  String.mk ((np.data.reverse.takeWhile (fun c => c != '/')).reverse)

/-- Modelled from the spec (§4.2 ls_info): invalid paths give an empty list;
an exact file gives its single entry; otherwise the immediate children of the
stored paths below the directory are listed, files marked by exact match and
directories given their immediate child count. -/
def StateBackend.ls_info (st : StateBackend) (path : String) : List DirEntry :=
  match _validate_path path with
  | some _ => []
  | none =>
    let np := _normalize_path path
    match alookup st.files np with
    | some _ => [⟨baseName np, np, false, none⟩]
    | none =>
      let pre := if np = "/" then "/" else np ++ "/"
      let under := st.files.filter (fun pf => pre.data.isPrefixOf pf.1.data)
      let names := dedup (under.map (fun pf => childNameOf np pf.1))
      names.map (fun nm =>
        let cp := if np = "/" then "/" ++ nm else np ++ ("/" ++ nm)
        match alookup st.files cp with
        | some _ => ⟨nm, cp, false, none⟩
        | none =>
          let grandchildren :=
            dedup ((st.files.filter
              (fun pf => (cp ++ "/").data.isPrefixOf pf.1.data)).map
                (fun pf => childNameOf cp pf.1))
          ⟨nm, cp, true, some grandchildren.length⟩)

/-- Modelled from the spec (§4.4): the composite backend holds a default
backend and a prefix-keyed route table. The spec asks the constructor to
reject overlapping prefixes, but the source accepts any table (spec §9
concedes this, and `test_ls_info_root_with_empty_prefix` constructs a
composite with the route `"/"`); construction is therefore total here. -/
structure CompositeBackend where
  default : StateBackend
  routes : List (String × StateBackend)
deriving DecidableEq

/-- Spec-modelled overlap check (§4.4 requires rejecting such tables): two
route prefixes overlap when one is a string prefix of the other, and a route
`"/"` covers the whole tree. -/
def routesOverlap (routes : List (String × StateBackend)) : Bool :=
  let ps := routes.map Prod.fst
  ps.contains "/" || anyPairOverlap ps
where
  anyPairOverlap : List String → Bool
    | [] => false
    | r :: rest =>
      rest.any (fun r2 => r.data.isPrefixOf r2.data || r2.data.isPrefixOf r.data)
        || anyPairOverlap rest

/-- Route matching (spec §4.4): a route prefix matches path `p` when it is a
string prefix of `normalize(p) + "/"`. -/
def routeMatches (r p : String) : Bool :=
  r.data.isPrefixOf (_normalize_path p ++ "/").data

/-- Longest-prefix route lookup (spec §4.4). -/
def routeFor (routes : List (String × StateBackend)) (p : String) :
    Option (String × StateBackend) :=
  match routes with
  | [] => none
  | (r, b) :: rest =>
    match routeFor rest p with
    | none => if routeMatches r p then some (r, b) else none
    | some (r2, b2) =>
      if routeMatches r p ∧ r2.length < r.length then some (r, b) else some (r2, b2)

/-- Replace the backend stored under route prefix `r`. -/
def updRoutes (routes : List (String × StateBackend)) (r : String) (b : StateBackend) :
    List (String × StateBackend) :=
  routes.map (fun rb => if rb.1 = r then (r, b) else rb)

/-- The path rewritten as the spec's words describe dispatch (§4.4): strip the
prefix-minus-trailing-slash and prepend `/`; kept for comparison with the
dispatch pinned by the repository's tests, which passes the path through
unmodified. -/
def specRewrittenPath (r p : String) : String := "/" ++ String.mk (p.data.drop r.length)

/-- Modelled from the spec (§4.4) with the dispatch path pinned by the
repository's tests (`TestCompositeBackendExtended.test_read_from_routed_backend`
stores `/special/file.txt` directly in the routed backend and reads the same
full path through the composite): the matched route's backend receives the
path unmodified. -/
def CompositeBackend.read (c : CompositeBackend) (p : String) (offset limit : Nat) : String :=
  match routeFor c.routes p with
  | some rb => rb.2.read p offset limit
  | none => c.default.read p offset limit

/-- Composite write: dispatch by longest matching prefix, path unmodified
(see `CompositeBackend.read`); the updated composite is returned. -/
def CompositeBackend.write (c : CompositeBackend) (p content : String) :
    CompositeBackend × WriteResult :=
  match routeFor c.routes p with
  | some rb =>
    let res := rb.2.write p content
    (⟨c.default, updRoutes c.routes rb.1 res.1⟩, res.2)
  | none =>
    let res := c.default.write p content
    (⟨res.1, c.routes⟩, res.2)

/-- Composite edit: dispatch by longest matching prefix, path unmodified. -/
def CompositeBackend.edit (c : CompositeBackend) (p old_string new_string : String)
    (replace_all : Bool) : CompositeBackend × EditResult :=
  match routeFor c.routes p with
  | some rb =>
    let res := rb.2.edit p old_string new_string replace_all
    (⟨c.default, updRoutes c.routes rb.1 res.1⟩, res.2)
  | none =>
    let res := c.default.edit p old_string new_string replace_all
    (⟨res.1, c.routes⟩, res.2)

/-- A backend's contribution to an aggregate grep: its matches, or nothing
when it returned an error (spec §4.4: errors are merged as empty). -/
def grepContrib (b : StateBackend) (pattern : String) : List GrepMatch :=
  match b.grep_raw pattern none with
  | .found ms => ms
  | .error _ => []

/-- Modelled from the spec (§4.4 grep_raw): a root query (`path` absent,
empty, or `/`) consults the default backend and every route, merging error
returns as empty contributions; the repository's tests pin that the merged
result is returned as a list even when every consulted backend errors
(`test_grep_raw_with_error_from_default` greps `"[invalid"` against two
backends that both reject it and still receives a list). Other paths
dispatch to the single matching backend, path unmodified. -/
def CompositeBackend.grep_raw (c : CompositeBackend) (pattern : String)
    (path : Option String) : GrepResult :=
  let rootQuery :=
    match path with
    | none => true
    | some p => p = "" || p = "/"
  if rootQuery then
    .found (grepContrib c.default pattern
      ++ (c.routes.map (fun rb => grepContrib rb.2 pattern)).flatten)
  else
    match path with
    | none => .found []
    | some p =>
      match routeFor c.routes p with
      | some rb => rb.2.grep_raw pattern (some p)
      | none => c.default.grep_raw pattern (some p)

/-- The first segment of a route prefix (the name of its virtual directory). -/
def routeFirstSeg (r : String) : String :=
  String.mk ((r.data.drop 1).takeWhile (fun c => c != '/'))

/-- Modelled from the spec (§4.4 ls_info): listing the root delegates to the
default backend and then appends a virtual directory entry for every route
prefix whose first segment is not already among the children. Other paths
dispatch to the single matching backend, path unmodified. -/
def CompositeBackend.ls_info (c : CompositeBackend) (path : String) : List DirEntry :=
  let np := if path = "" then "/" else _normalize_path path
  if np = "/" then
    c.routes.foldl
      (fun acc rb =>
        let seg := routeFirstSeg rb.1
        if (acc.map DirEntry.name).contains seg then acc
        else acc ++ [⟨seg, "/" ++ seg, true, none⟩])
      (c.default.ls_info "/")
  else
    match routeFor c.routes np with
    | some rb => rb.2.ls_info np
    | none => c.default.ls_info np

/-- Todo status (`pydantic_deep/toolsets/todo.py`, `TodoItem.status`). -/
inductive TodoStatus where
  | pending
  | in_progress
  | completed
deriving DecidableEq

/-- A todo item (`pydantic_deep/types.Todo` as used by the todo toolset). -/
structure Todo where
  content : String
  status : TodoStatus
  active_form : String
deriving DecidableEq

/-- The agent dependencies consulted by the todo system prompt
(`DeepAgentDeps`); only the fields the modelled operations read are kept. -/
structure DeepAgentDeps where
  backend : StateBackend
  todos : List Todo
deriving DecidableEq

/-- The stable guidance paragraph `TODO_SYSTEM_PROMPT` of
`pydantic_deep/toolsets/todo.py`, transcribed verbatim. -/
def TODO_SYSTEM_PROMPT : String :=
  "\n## Task Management\n\nYou have access to the `write_todos` tool to track your tasks.\nUse it frequently to:\n- Plan complex tasks before starting\n- Show progress to the user\n- Keep track of what\x27s done and what\x27s pending\n\nWhen working on tasks:\n1. Break down complex tasks into smaller steps\n2. Mark exactly one task as in_progress at a time\n3. Mark tasks as completed immediately after finishing\n"

/-- The status-icon table of `get_todo_system_prompt` (`todo.py` lines
129-133): `[x]` completed, `[*]` in_progress, `[ ]` pending. -/
def statusIcon : TodoStatus → String
  | .pending => "[ ]"
  | .in_progress => "[*]"
  | .completed => "[x]"

/-- The `- {icon} {content}` rendering of one todo line. -/
def todoLine (t : Todo) : String :=
  "- " ++ (statusIcon t.status ++ (" " ++ t.content))

/-- `get_todo_system_prompt` (`pydantic_deep/toolsets/todo.py` lines 114-136):
the stable guidance alone when the todo list is empty, otherwise the guidance
followed by a blank line, the `## Current Todos` heading, and one icon line
per todo, all joined with newlines. -/
def get_todo_system_prompt (deps : DeepAgentDeps) : String :=
  if deps.todos = [] then TODO_SYSTEM_PROMPT
  else
    joinLines ([TODO_SYSTEM_PROMPT, "", "## Current Todos"] ++ deps.todos.map todoLine)

/-- The `write_todos` summary string (`todo.py` lines 104-109). -/
def write_todos_summary (todos : List Todo) : String :=
  let count := fun (st : TodoStatus) => (todos.filter (fun t => t.status = st)).length
  "Updated " ++ (natToStr todos.length ++ (" todos: "
    ++ (natToStr (count .completed) ++ (" completed, "
    ++ (natToStr (count .in_progress) ++ (" in progress, "
    ++ (natToStr (count .pending) ++ " pending")))))))

/-- A frontmatter value of the minimal YAML subset: a scalar string or a list. -/
inductive FMValue where
  | str : String → FMValue
  | list : List String → FMValue
deriving DecidableEq

/-- Strip one matching pair of surrounding double or single quotes. -/
def stripQuotes (s : String) : String :=
  if 2 ≤ s.length ∧ ((['"'].isPrefixOf s.data ∧ ['"'].isSuffixOf s.data)
      ∨ (['\x27'].isPrefixOf s.data ∧ ['\x27'].isSuffixOf s.data)) then
    String.mk (s.data.drop 1).dropLast
  else s

/-- Strip leading and trailing spaces (the whitespace the skill files use). -/
def strTrim (s : String) : String :=
  String.mk (((s.data.dropWhile (fun c => c = ' ')).reverse.dropWhile
    (fun c => c = ' ')).reverse)

/-- Split a line at its first colon, if any. -/
def splitColon (l : String) : Option (String × String) :=
  go l.data |>.map (fun ab => (String.mk ab.1, String.mk ab.2))
where
  go : List Char → Option (List Char × List Char)
    | [] => none
    | c :: cs =>
      if c = ':' then some ([], cs)
      else (go cs).map (fun ab => (c :: ab.1, ab.2))

/-- Modelled from the spec (§4.7, the skills toolset source is not in the
tree): parse the frontmatter block line by line; `key: value` lines bind
scalars (outer quotes stripped), indented `- item` lines under a key with an
empty value accumulate a list, and lines without a colon are ignored. The
accumulator is kept newest-first so lookups see the latest binding. -/
def parseFMLines : List String → List (String × FMValue) → List (String × FMValue)
  | [], acc => acc
  | l :: rest, acc =>
    if [' '].isPrefixOf l.data ∧ ['-', ' '].isPrefixOf (strTrim l).data then
      let item := stripQuotes (strTrim (String.mk ((strTrim l).data.drop 2)))
      match acc with
      | (k, FMValue.list items) :: accRest =>
        parseFMLines rest ((k, .list (items ++ [item])) :: accRest)
      | (k, FMValue.str "") :: accRest =>
        parseFMLines rest ((k, .list [item]) :: accRest)
      | _ => parseFMLines rest acc
    else
      match splitColon l with
      | none => parseFMLines rest acc
      | some kv =>
        parseFMLines rest ((strTrim kv.1, FMValue.str (stripQuotes (strTrim kv.2))) :: acc)

/-- Take the frontmatter lines up to the first line that is exactly `---`,
returning them and the remaining body lines when the delimiter is found. -/
def splitAtDashes : List String → List String × Option (List String)
  | [] => ([], none)
  | l :: ls =>
    if l = "---" then ([], some ls)
    else
      let fr := splitAtDashes ls
      (l :: fr.1, fr.2)

/-- Modelled from the spec (§4.7 parse_skill_md): text beginning with
`---\n` has its block up to the next bare `---` parsed as minimal YAML and
the rest is the body; otherwise the whole text is the body with empty
frontmatter (also when no closing delimiter exists). -/
def parse_skill_md (text : String) : List (String × FMValue) × String :=
  if ['-', '-', '-', '\n'].isPrefixOf text.data then
    let fr := splitAtDashes (splitLines (String.mk (text.data.drop 4)))
    match fr.2 with
    | some bodyLines => (parseFMLines fr.1 [], joinLines bodyLines)
    | none => ([], text)
  else ([], text)

/-- A skill record (spec §3); `frontmatter_loaded` is omitted: no claim
mentions it. -/
structure Skill where
  name : String
  description : String
  path : String
  version : String
  author : String
  tags : List String
  resources : List String
deriving DecidableEq

/-- A candidate skill subdirectory as the discovery walk sees it: its path,
its `SKILL.md` content when the file exists, and its other top-level file
names. Host-filesystem enumeration is abstracted into this listing. -/
structure SkillDirEntry where
  path : String
  skillMd : Option String
  resources : List String
deriving DecidableEq

def fmString (fm : List (String × FMValue)) (key : String) : String :=
  match alookup fm key with
  | some (.str s) => s
  | _ => ""

def fmList (fm : List (String × FMValue)) (key : String) : List String :=
  match alookup fm key with
  | some (.list l) => l
  | _ => []

/-- Modelled from the spec (§4.7 discover_skills): each candidate directory
with a `SKILL.md` is parsed and skipped when the frontmatter lacks `name`;
otherwise a Skill record is built from the frontmatter, the directory path
and the resource listing. -/
def skillOfDir (d : SkillDirEntry) : Option Skill :=
  match d.skillMd with
  | none => none
  | some text =>
    let fm := (parse_skill_md text).1
    match alookup fm "name" with
    | some (FMValue.str nm) =>
      some ⟨nm, fmString fm "description", d.path, fmString fm "version",
        fmString fm "author", fmList fm "tags", d.resources⟩
    | _ => none

def discover_skills (dirs : List SkillDirEntry) : List Skill :=
  dirs.filterMap skillOfDir

/-- The two approval flags `create_deep_agent` passes to the filesystem
toolset (`pydantic_deep/agent.py` lines 121-134): write approval defaults to
off and is enabled by `interrupt_on["write_file"]` or
`interrupt_on["edit_file"]`; execute approval defaults to on and is disabled
only by an explicit `interrupt_on["execute"] = False`. The `interrupt_on`
dict is modelled as an association list. -/
structure ApprovalFlags where
  require_write_approval : Bool
  require_execute_approval : Bool
deriving DecidableEq

def interruptGet (interrupt_on : List (String × Bool)) (key : String) (dflt : Bool) : Bool :=
  match alookup interrupt_on key with
  | some v => v
  | none => dflt

def create_deep_agent_flags (interrupt_on : List (String × Bool)) : ApprovalFlags :=
  ⟨interruptGet interrupt_on "write_file" false || interruptGet interrupt_on "edit_file" false,
   interruptGet interrupt_on "execute" true⟩

/-- Strip the line-number gutter from every rendered line and re-join: the
inverse rendering map the spec's round-trip invariant (§8) describes. -/
def stripJoin (s : String) : String :=
  joinLines ((splitLines s).map (fun l => String.mk (stripGutter l.data)))

theorem splitOnNl_ne_nil (cs : List Char) : splitOnNl cs ≠ [] := by
  induction cs with
  | nil => simp [splitOnNl]
  | cons c cs ih =>
    simp only [splitOnNl]
    split
    · simp
    · cases h : splitOnNl cs with
      | nil => simp
      | cons l ls => simp

theorem joinNl_cons_cons (l : List Char) (l' : List Char) (ls : List (List Char)) :
    joinNl (l :: l' :: ls) = l ++ '\n' :: joinNl (l' :: ls) := rfl

theorem joinNl_splitOnNl (cs : List Char) : joinNl (splitOnNl cs) = cs := by
  induction cs with
  | nil => rfl
  | cons c cs ih =>
    by_cases hc : c = '\n'
    · subst hc
      cases h : splitOnNl cs with
      | nil => exact absurd h (splitOnNl_ne_nil cs)
      | cons l ls =>
        have hstep : splitOnNl ('\n' :: cs) = [] :: l :: ls := by
          simp [splitOnNl, h]
        rw [hstep, joinNl_cons_cons]
        rw [h] at ih
        simp [ih]
    · cases h : splitOnNl cs with
      | nil => exact absurd h (splitOnNl_ne_nil cs)
      | cons l ls =>
        have hstep : splitOnNl (c :: cs) = (c :: l) :: ls := by
          simp only [splitOnNl, if_neg hc, h]
        rw [hstep]
        rw [h] at ih
        cases ls with
        | nil => simpa [joinNl] using ih
        | cons l'' ls' =>
          rw [joinNl_cons_cons]
          rw [joinNl_cons_cons] at ih
          simp [ih]

theorem splitOnNl_no_nl (cs : List Char) (h : '\n' ∉ cs) : splitOnNl cs = [cs] := by
  induction cs with
  | nil => rfl
  | cons c cs ih =>
    simp only [List.mem_cons, not_or] at h
    have hc : c ≠ '\n' := fun hcc => h.1 hcc.symm
    simp only [splitOnNl, if_neg hc, ih h.2]

theorem splitOnNl_append_nl (l rest : List Char) (h : '\n' ∉ l) :
    splitOnNl (l ++ '\n' :: rest) = l :: splitOnNl rest := by
  induction l with
  | nil => simp [splitOnNl]
  | cons c cs ih =>
    simp only [List.mem_cons, not_or] at h
    have hc : c ≠ '\n' := fun hcc => h.1 hcc.symm
    simp only [List.cons_append, splitOnNl, if_neg hc, List.append_eq, ih h.2]

/-- Every chunk produced by `splitOnNl` is newline-free. -/
theorem splitOnNl_mem_no_nl (cs : List Char) (l : List Char) (hl : l ∈ splitOnNl cs) :
    '\n' ∉ l := by
  induction cs generalizing l with
  | nil =>
    simp only [splitOnNl, List.mem_singleton] at hl
    subst hl; simp
  | cons c cs ih =>
    simp only [splitOnNl] at hl
    by_cases hc : c = '\n'
    · rw [if_pos hc] at hl
      rcases List.mem_cons.mp hl with h | h
      · subst h; simp
      · exact ih l h
    · rw [if_neg hc] at hl
      cases h : splitOnNl cs with
      | nil => exact absurd h (splitOnNl_ne_nil cs)
      | cons l' ls =>
        rw [h] at hl
        rcases List.mem_cons.mp hl with h1 | h1
        · subst h1
          intro hmem
          rcases List.mem_cons.mp hmem with h2 | h2
          · exact hc h2.symm
          · exact ih l' (h ▸ List.mem_cons_self l' ls) h2
        · exact ih l (h ▸ List.mem_cons_of_mem l' h1)

theorem splitOnNl_joinNl (L : List (List Char)) (hne : L ≠ [])
    (hnl : ∀ l ∈ L, '\n' ∉ l) : splitOnNl (joinNl L) = L := by
  induction L with
  | nil => exact absurd rfl hne
  | cons l ls ih =>
    cases ls with
    | nil =>
      simp only [joinNl]
      exact splitOnNl_no_nl l (hnl l (List.mem_cons_self l []))
    | cons l' ls' =>
      rw [joinNl_cons_cons]
      rw [splitOnNl_append_nl l _ (hnl l (List.mem_cons_self l _))]
      rw [ih (by simp) (fun x hx => hnl x (List.mem_cons_of_mem l hx))]

/-- `joinNl` is injective on nonempty lists of newline-free chunks. -/
theorem joinNl_inj {L1 L2 : List (List Char)} (h1 : L1 ≠ []) (h2 : L2 ≠ [])
    (hn1 : ∀ l ∈ L1, '\n' ∉ l) (hn2 : ∀ l ∈ L2, '\n' ∉ l)
    (h : joinNl L1 = joinNl L2) : L1 = L2 := by
  have := congrArg splitOnNl h
  rwa [splitOnNl_joinNl L1 h1 hn1, splitOnNl_joinNl L2 h2 hn2] at this

theorem String.mk_data (s : String) : String.mk s.data = s := rfl

theorem strData_append (a b : String) : (a ++ b).data = a.data ++ b.data := rfl

theorem map_data_map_mk (L : List (List Char)) :
    (L.map String.mk).map String.data = L := by
  induction L with
  | nil => rfl
  | cons l ls ih => simp [ih]

/-- Round trip: joining the split lines reproduces the content byte-for-byte. -/
theorem joinLines_splitLines (s : String) : joinLines (splitLines s) = s := by
  unfold joinLines splitLines
  rw [map_data_map_mk, joinNl_splitOnNl]

theorem splitLines_ne_nil (s : String) : splitLines s ≠ [] := by
  unfold splitLines
  intro h
  exact splitOnNl_ne_nil s.data (List.map_eq_nil_iff.mp h)

theorem splitLines_no_nl (s : String) (l : String) (hl : l ∈ splitLines s) :
    '\n' ∉ l.data := by
  unfold splitLines at hl
  rcases List.mem_map.mp hl with ⟨cl, hcl, hmk⟩
  subst hmk
  exact splitOnNl_mem_no_nl s.data cl hcl

theorem digitChar_mem (d : Nat) :
    digitChar d ∈ ['0', '1', '2', '3', '4', '5', '6', '7', '8', '9', '?'] := by
  unfold digitChar
  repeat' split
  all_goals decide

theorem digitChar_ne (d : Nat) (c : Char) (hc : c ∉ ['0', '1', '2', '3', '4', '5', '6', '7', '8', '9', '?']) :
    digitChar d ≠ c := by
  intro h
  exact hc (h ▸ digitChar_mem d)

theorem natDigitsAux_ne (c : Char) (hc : c ∉ ['0', '1', '2', '3', '4', '5', '6', '7', '8', '9', '?']) :
    ∀ fuel n, c ∉ natDigitsAux fuel n := by
  intro fuel
  induction fuel with
  | zero => intro n; simp [natDigitsAux]
  | succ f ih =>
    intro n
    unfold natDigitsAux
    split
    · simp only [List.mem_singleton]
      exact fun h => digitChar_ne n c hc h.symm
    · intro hmem
      rcases List.mem_append.mp hmem with h | h
      · exact ih (n / 10) h
      · simp only [List.mem_singleton] at h
        exact digitChar_ne (n % 10) c hc h.symm

theorem natDigits_ne (n : Nat) (c : Char) (hc : c ∉ ['0', '1', '2', '3', '4', '5', '6', '7', '8', '9', '?']) :
    c ∉ natDigits n := natDigitsAux_ne c hc (n + 1) n

theorem stripGutter_append (xs l : List Char) (h : '→' ∉ xs) :
    stripGutter (xs ++ '→' :: l) = l := by
  induction xs with
  | nil => simp [stripGutter]
  | cons c cs ih =>
    simp only [List.mem_cons, not_or] at h
    have hc : c ≠ '→' := fun hcc => h.1 hcc.symm
    simp only [List.cons_append, stripGutter, if_neg hc, List.append_eq, ih h.2]

theorem stripGutter_gutterL (n : Nat) (text : List Char) :
    stripGutter (gutterL n text) = text := by
  unfold gutterL
  apply stripGutter_append
  intro hmem
  rcases List.mem_append.mp hmem with h | h
  · have := List.eq_of_mem_replicate h
    simp at this
  · exact natDigits_ne n '→' (by decide) h

theorem gutterL_no_nl (n : Nat) (text : List Char) (h : '\n' ∉ text) :
    '\n' ∉ gutterL n text := by
  unfold gutterL
  intro hmem
  rcases List.mem_append.mp hmem with h1 | h1
  · rcases List.mem_append.mp h1 with h2 | h2
    · have := List.eq_of_mem_replicate h2
      simp at this
    · exact natDigits_ne n '\n' (by decide) h2
  · rcases List.mem_cons.mp h1 with h2 | h2
    · simp at h2
    · exact h h2

theorem isPrefixOf_append_self (n r : List Char) : n.isPrefixOf (n ++ r) = true := by
  induction n with
  | nil => simp
  | cons c cs ih => simp [List.isPrefixOf_cons₂, ih]

theorem isPrefixOf_self (l : List Char) : l.isPrefixOf l = true := by
  have h0 := isPrefixOf_append_self l []
  rwa [List.append_nil] at h0

theorem substrB_of_isPrefixOf {n h : List Char} (hp : n.isPrefixOf h = true) :
    substrB n h = true := by
  cases h with
  | nil => exact hp
  | cons c t => simp [substrB, hp]

theorem substrB_cons {n h : List Char} (c : Char) (hs : substrB n h = true) :
    substrB n (c :: h) = true := by
  simp [substrB, hs]

theorem substrB_append_left {n h : List Char} (x : List Char) (hs : substrB n h = true) :
    substrB n (x ++ h) = true := by
  induction x with
  | nil => exact hs
  | cons c cs ih => exact substrB_cons c ih

theorem substrB_middle (x n y : List Char) : substrB n (x ++ (n ++ y)) = true :=
  substrB_append_left x (substrB_of_isPrefixOf (isPrefixOf_append_self n y))

theorem mem_joinNl_substrB (L : List (List Char)) (l : List Char) (hl : l ∈ L) :
    substrB l (joinNl L) = true := by
  induction L with
  | nil => simp at hl
  | cons x xs ih =>
    rcases List.mem_cons.mp hl with h | h
    · subst h
      cases xs with
      | nil =>
        show substrB l (joinNl [l]) = true
        exact substrB_of_isPrefixOf (isPrefixOf_self l)
      | cons y ys =>
        rw [joinNl_cons_cons]
        exact substrB_of_isPrefixOf (isPrefixOf_append_self l _)
    · cases xs with
      | nil => simp at h
      | cons y ys =>
        rw [joinNl_cons_cons]
        exact substrB_append_left x (substrB_cons '\n' (ih h))

theorem mem_strContains_joinLines (ls : List String) (l : String) (hl : l ∈ ls) :
    strContains l (joinLines ls) := by
  unfold strContains joinLines
  exact mem_joinNl_substrB (ls.map String.data) l.data (List.mem_map_of_mem String.data hl)

theorem alookup_insertStore_self (fs : List (String × FileLines)) (k : String) (v : FileLines) :
    alookup (insertStore fs k v) k = some v := by
  induction fs with
  | nil => simp [insertStore, alookup]
  | cons kv rest ih =>
    obtain ⟨k', v'⟩ := kv
    show alookup
      (if k = k' then (k, v) :: rest
       else if k < k' then (k, v) :: (k', v') :: rest
       else (k', v') :: insertStore rest k v) k = some v
    split_ifs with h1 h2
    · simp [alookup]
    · simp [alookup]
    · have hne : k' ≠ k := fun h => h1 h.symm
      simp [alookup, if_neg hne, ih]

theorem isPrefixOf_eq_append {p l : List Char} (h : p.isPrefixOf l = true) :
    p ++ l.drop p.length = l :=
  List.prefix_iff_eq_append.mp ( List.isPrefixOf_iff_prefix.mp h)

theorem drop_cons_pred (ch : Char) (cs : List Char) {m : Nat} (hm : 0 < m) :
    (ch :: cs).drop m = cs.drop (m - 1) := by
  cases m with
  | zero => omega
  | succ k => simp

theorem replaceAllFuel_self (p : List Char) (hp : p ≠ []) :
    ∀ fuel (c : List Char), c.length ≤ fuel → replaceAllFuel p p fuel c = c := by
  have hpl : 0 < p.length := List.length_pos.mpr hp
  intro fuel
  induction fuel with
  | zero =>
    intro c hc
    cases c with
    | nil => rfl
    | cons ch cs => simp at hc
  | succ n ih =>
    intro c hc
    cases c with
    | nil => rfl
    | cons ch cs =>
      simp only [replaceAllFuel]
      by_cases h : p.isPrefixOf (ch :: cs)
      · rw [if_pos h]
        have hlen : (cs.drop (p.length - 1)).length ≤ n := by
          simp only [List.length_drop]
          simp only [List.length_cons] at hc
          omega
        rw [ih _ hlen]
        rw [← drop_cons_pred ch cs hpl]
        exact isPrefixOf_eq_append h
      · rw [if_neg h]
        rw [ih cs (by simp only [List.length_cons] at hc; omega)]

theorem replaceAllAux_self (p : List Char) (hp : p ≠ []) (c : List Char) :
    replaceAllAux p p c = c :=
  replaceAllFuel_self p hp c.length c le_rfl

theorem replaceFirstAux_self (p : List Char) (hp : p ≠ []) (c : List Char) :
    replaceFirstAux p p c = c := by
  have hpl : 0 < p.length := List.length_pos.mpr hp
  induction c with
  | nil => rfl
  | cons ch cs ih =>
    simp only [replaceFirstAux]
    by_cases h : p.isPrefixOf (ch :: cs)
    · rw [if_pos h]
      rw [← drop_cons_pred ch cs hpl]
      exact isPrefixOf_eq_append h
    · rw [if_neg h, ih]

theorem flatten_map_singleton (c : List Char) :
    (c.map (fun ch => ch :: ([] : List Char))).flatten = c := by
  induction c with
  | nil => rfl
  | cons ch cs ih => simp [ih]

/-- Replacing a string by itself never changes the content. -/
theorem replaceAllL_self (p c : List Char) : replaceAllL p p c = c := by
  unfold replaceAllL
  by_cases hp : p = []
  · subst hp
    simp [flatten_map_singleton c]
  · rw [if_neg hp]
    exact replaceAllAux_self p hp c

/-- Replacing the first occurrence of a string by itself never changes the content. -/
theorem replaceFirstL_self (p c : List Char) : replaceFirstL p p c = c := by
  unfold replaceFirstL
  by_cases hp : p = []
  · subst hp; simp
  · rw [if_neg hp]
    exact replaceFirstAux_self p hp c

theorem drop_length_sub_one {α : Type} (l : List α) (h : l ≠ []) :
    l.drop (l.length - 1) = [l.getLast h] := by
  induction l with
  | nil => exact absurd rfl h
  | cons c cs ih =>
    cases cs with
    | nil => rfl
    | cons c' cs' =>
      have hne : c' :: cs' ≠ [] := by simp
      have h1 : (c :: c' :: cs').length - 1 = (c' :: cs').length := by
        simp
      rw [h1]
      have h2 : (c :: c' :: cs').drop (c' :: cs').length
          = (c' :: cs').drop ((c' :: cs').length - 1) := by
        apply drop_cons_pred'
        simp
      rw [h2, ih hne, List.getLast_cons hne]
where
  drop_cons_pred' {α : Type} (c : α) (cs : List α) {m : Nat} (hm : 0 < m) :
      (c :: cs).drop m = cs.drop (m - 1) := by
    cases m with
    | zero => omega
    | succ k => simp

theorem map_mk_map_data (ls : List String) :
    ((ls.map String.data).map String.mk) = ls := by
  induction ls with
  | nil => rfl
  | cons l rest ih => simp [ih, String.mk_data]

theorem splitLines_joinLines (ls : List String) (hne : ls ≠ [])
    (hnl : ∀ l ∈ ls, '\n' ∉ l.data) : splitLines (joinLines ls) = ls := by
  unfold splitLines joinLines
  have h1 : (String.mk (joinNl (ls.map String.data))).data = joinNl (ls.map String.data) := rfl
  rw [h1]
  rw [splitOnNl_joinNl (ls.map String.data) (by simpa using hne)]
  · exact map_mk_map_data ls
  · intro l hl
    rcases List.mem_map.mp hl with ⟨x, hx, hdata⟩
    subst hdata
    exact hnl x hx

theorem joinLines_inj {L1 L2 : List String} (h1 : L1 ≠ []) (h2 : L2 ≠ [])
    (hn1 : ∀ l ∈ L1, '\n' ∉ l.data) (hn2 : ∀ l ∈ L2, '\n' ∉ l.data)
    (h : joinLines L1 = joinLines L2) : L1 = L2 := by
  have := congrArg splitLines h
  rwa [splitLines_joinLines L1 h1 hn1, splitLines_joinLines L2 h2 hn2] at this

/-- C4: for an existing file whose content contains `old_string` `k` times,
`edit` returns the `"String not found"` error when `k = 0`, an error stating
the exact occurrence count (containing `"{k} times"`) when `k > 1` without
`replace_all`, and success with occurrence count `k` when `k = 1` or when
`replace_all` is set. -/
theorem edit_occurrence_count_cases
    (st : StateBackend) (path old_string new_string : String) (ls : FileLines) (k : Nat)
    (hv : _validate_path path = none)
    (hl : alookup st.files (_normalize_path path) = some ls)
    (hk : countOccur old_string.data (joinLines ls).data = k) :
    (k = 0 → (st.edit path old_string new_string false).2 = .error "String not found")
    ∧ (1 < k → (st.edit path old_string new_string false).2 = .error (occursMsg k)
        ∧ strContains (natToStr k ++ " times") (occursMsg k))
    ∧ (k = 1 → (st.edit path old_string new_string false).2 = .ok 1)
    ∧ (1 ≤ k → (st.edit path old_string new_string true).2 = .ok k) := by
  subst hk
  refine ⟨fun h0 => ?_, fun h1 => ⟨?_, ?_⟩, fun h1 => ?_, fun h1 => ?_⟩
  · simp [StateBackend.edit, hv, hl, h0]
  · have h0 : ¬ countOccur old_string.data (joinLines ls).data = 0 := by omega
    simp [StateBackend.edit, hv, hl, h0, h1]
  · simp only [strContains, occursMsg, strData_append]
    exact substrB_middle _ _ _
  · simp [StateBackend.edit, hv, hl, h1]
  · have h0 : ¬ countOccur old_string.data (joinLines ls).data = 0 := by omega
    simp [StateBackend.edit, hv, hl, h0]

/-- C4 witness: a file containing `"foo"` three times exercises every branch. -/
theorem edit_occurrence_count_cases_witness :
    _validate_path "/f" = none
    ∧ alookup (StateBackend.mk [("/f", ["foo bar foo baz foo"])]).files (_normalize_path "/f")
        = some ["foo bar foo baz foo"]
    ∧ countOccur "foo".data (joinLines ["foo bar foo baz foo"]).data = 3
    ∧ (((3 : Nat) = 0 →
          ((StateBackend.mk [("/f", ["foo bar foo baz foo"])]).edit "/f" "foo" "qux" false).2
            = .error "String not found")
      ∧ (1 < (3 : Nat) →
          ((StateBackend.mk [("/f", ["foo bar foo baz foo"])]).edit "/f" "foo" "qux" false).2
            = .error (occursMsg 3)
          ∧ strContains (natToStr 3 ++ " times") (occursMsg 3))
      ∧ ((3 : Nat) = 1 →
          ((StateBackend.mk [("/f", ["foo bar foo baz foo"])]).edit "/f" "foo" "qux" false).2
            = .ok 1)
      ∧ (1 ≤ (3 : Nat) →
          ((StateBackend.mk [("/f", ["foo bar foo baz foo"])]).edit "/f" "foo" "qux" true).2
            = .ok 3)) :=
  ⟨by decide, by decide, by decide,
   edit_occurrence_count_cases (StateBackend.mk [("/f", ["foo bar foo baz foo"])])
     "/f" "foo" "qux" ["foo bar foo baz foo"] 3 (by decide) (by decide) (by decide)⟩

/-- C5 counterexample: with content `"foo foo"`, `edit("/f", "foo", "foo")`
without `replace_all` returns the occurrence-count error, not success, even
though `"foo"` occurs (twice) in the content. -/
theorem edit_self_not_always_success_counterexample :
    1 ≤ countOccur "foo".data (joinLines ["foo foo"]).data
    ∧ ((StateBackend.mk [("/f", ["foo foo"])]).edit "/f" "foo" "foo" false).2
        = EditResult.error (occursMsg 2) :=
  ⟨by decide, by decide⟩

/-- C5 (amended): `edit(path, s, s)` never changes the stored content; it
returns success with the occurrence count `k` when `k = 1` or when
`replace_all` is set with `k ≥ 1`, the occurrence-count error when `k > 1`
without `replace_all`, and `"String not found"` when `k = 0`. -/
theorem edit_self_preserves_content
    (st : StateBackend) (path s : String) (ls : FileLines) (k : Nat) (ra : Bool)
    (hv : _validate_path path = none)
    (hl : alookup st.files (_normalize_path path) = some ls)
    (hk : countOccur s.data (joinLines ls).data = k) :
    (∃ ls2, alookup (st.edit path s s ra).1.files (_normalize_path path) = some ls2
      ∧ joinLines ls2 = joinLines ls)
    ∧ (k = 1 ∨ (ra = true ∧ 1 ≤ k) → (st.edit path s s ra).2 = .ok k)
    ∧ (1 < k ∧ ra = false → (st.edit path s s ra).2 = .error (occursMsg k))
    ∧ (k = 0 → (st.edit path s s ra).2 = .error "String not found") := by
  subst hk
  by_cases h0 : countOccur s.data (joinLines ls).data = 0
  · have he : st.edit path s s ra = (st, .error "String not found") := by
      simp [StateBackend.edit, hv, hl, h0]
    refine ⟨⟨ls, by rw [he]; exact hl, rfl⟩, fun hcase => ?_, fun hcase => ?_, fun _ => by rw [he]⟩
    · rcases hcase with h | ⟨_, h⟩ <;> omega
    · omega
  · by_cases hB : 1 < countOccur s.data (joinLines ls).data ∧ ra = false
    · obtain ⟨hgt, hra⟩ := hB
      subst hra
      have he : st.edit path s s false
          = (st, .error (occursMsg (countOccur s.data (joinLines ls).data))) := by
        simp [StateBackend.edit, hv, hl, h0, hgt]
      refine ⟨⟨ls, by rw [he]; exact hl, rfl⟩, fun hcase => ?_, fun _ => by rw [he], fun h => absurd h h0⟩
      rcases hcase with h | ⟨h, _⟩
      · omega
      · exact absurd h (by simp)
    · have he : st.edit path s s ra
          = (⟨insertStore st.files (_normalize_path path) (splitLines (joinLines ls))⟩,
             .ok (countOccur s.data (joinLines ls).data)) := by
        cases ra with
        | false =>
          have hk1 : countOccur s.data (joinLines ls).data = 1 := by
            rcases Nat.lt_or_ge 1 (countOccur s.data (joinLines ls).data) with h | h
            · exact absurd ⟨h, rfl⟩ hB
            · omega
          simp [StateBackend.edit, hv, hl, hk1, replaceFirstL_self, String.mk_data]
        | true =>
          simp [StateBackend.edit, hv, hl, h0, replaceAllL_self, String.mk_data]
      refine ⟨⟨splitLines (joinLines ls), ?_, joinLines_splitLines _⟩,
        fun _ => by rw [he], fun hcase => absurd hcase hB, fun h => absurd h h0⟩
      rw [he]
      exact alookup_insertStore_self _ _ _

/-- C5 witness: a single occurrence without `replace_all` succeeds and
preserves the content. -/
theorem edit_self_preserves_content_witness :
    _validate_path "/f" = none
    ∧ alookup (StateBackend.mk [("/f", ["hello foo world"])]).files (_normalize_path "/f")
        = some ["hello foo world"]
    ∧ countOccur "foo".data (joinLines ["hello foo world"]).data = 1
    ∧ ((∃ ls2, alookup ((StateBackend.mk [("/f", ["hello foo world"])]).edit "/f" "foo" "foo" false).1.files
          (_normalize_path "/f") = some ls2 ∧ joinLines ls2 = joinLines ["hello foo world"])
      ∧ ((1 : Nat) = 1 ∨ (false = true ∧ 1 ≤ (1 : Nat)) →
          ((StateBackend.mk [("/f", ["hello foo world"])]).edit "/f" "foo" "foo" false).2 = .ok 1)
      ∧ (1 < (1 : Nat) ∧ false = false →
          ((StateBackend.mk [("/f", ["hello foo world"])]).edit "/f" "foo" "foo" false).2
            = .error (occursMsg 1))
      ∧ ((1 : Nat) = 0 →
          ((StateBackend.mk [("/f", ["hello foo world"])]).edit "/f" "foo" "foo" false).2
            = .error "String not found")) :=
  ⟨by decide, by decide, by decide,
   edit_self_preserves_content (StateBackend.mk [("/f", ["hello foo world"])])
     "/f" "foo" ["hello foo world"] 1 false (by decide) (by decide) (by decide)⟩

theorem joinLines_singleton (l : String) : joinLines [l] = l := by
  unfold joinLines
  show String.mk (joinNl [l.data]) = l
  exact String.mk_data l

/-- C6: reading an existing file with `offset ≥ line_count` yields an error
string mentioning both the offset and the line count (in particular at
`offset = line_count` exactly), and reading at `offset = line_count - 1`
yields the last line, gutter-formatted. -/
theorem read_offset_boundaries
    (st : StateBackend) (path : String) (ls : FileLines) (limit : Nat)
    (hv : _validate_path path = none)
    (hl : alookup st.files (_normalize_path path) = some ls)
    (hne : ls ≠ []) (hlim : 1 ≤ limit) :
    (∀ offset, ls.length ≤ offset →
      st.read path offset limit = offsetErrMsg offset ls.length
      ∧ strContains (natToStr offset) (offsetErrMsg offset ls.length)
      ∧ strContains (natToStr ls.length) (offsetErrMsg offset ls.length))
    ∧ st.read path (ls.length - 1) limit = gutterStr ls.length (ls.getLast hne) := by
  have hpos : 0 < ls.length := List.length_pos.mpr hne
  constructor
  · intro offset hoff
    refine ⟨?_, ?_, ?_⟩
    · simp [StateBackend.read, hv, hl, hoff]
    · simp only [strContains, offsetErrMsg, strData_append]
      exact substrB_middle _ _ _
    · simp only [strContains, offsetErrMsg, strData_append]
      apply substrB_append_left
      apply substrB_append_left
      apply substrB_append_left
      exact substrB_of_isPrefixOf (isPrefixOf_append_self _ _)
  · have hcond : ¬ ls.length ≤ ls.length - 1 := by omega
    simp only [StateBackend.read, hv, hl]
    rw [if_neg hcond, drop_length_sub_one ls hne]
    cases limit with
    | zero => omega
    | succ m =>
      have h1 : ls.length - 1 + 1 = ls.length := by omega
      simp [renderFrom, h1, joinLines_singleton]

/-- C6 witness: a two-line file read at offsets 2 and 1. -/
theorem read_offset_boundaries_witness :
    _validate_path "/t" = none
    ∧ alookup (StateBackend.mk [("/t", ["alpha", "beta"])]).files (_normalize_path "/t")
        = some ["alpha", "beta"]
    ∧ (["alpha", "beta"] ≠ ([] : FileLines))
    ∧ 1 ≤ 2000
    ∧ ((∀ offset, (["alpha", "beta"] : FileLines).length ≤ offset →
        (StateBackend.mk [("/t", ["alpha", "beta"])]).read "/t" offset 2000
            = offsetErrMsg offset (["alpha", "beta"] : FileLines).length
          ∧ strContains (natToStr offset) (offsetErrMsg offset (["alpha", "beta"] : FileLines).length)
          ∧ strContains (natToStr (["alpha", "beta"] : FileLines).length)
              (offsetErrMsg offset (["alpha", "beta"] : FileLines).length))
      ∧ (StateBackend.mk [("/t", ["alpha", "beta"])]).read "/t"
            ((["alpha", "beta"] : FileLines).length - 1) 2000
          = gutterStr (["alpha", "beta"] : FileLines).length
              ((["alpha", "beta"] : FileLines).getLast (by decide))) :=
  ⟨by decide, by decide, by decide, by decide,
   read_offset_boundaries (StateBackend.mk [("/t", ["alpha", "beta"])]) "/t"
     ["alpha", "beta"] 2000 (by decide) (by decide) (by decide) (by decide)⟩

theorem renderFrom_ne_nil (n : Nat) (ls : List String) (hne : ls ≠ []) :
    renderFrom n ls ≠ [] := by
  cases ls with
  | nil => exact absurd rfl hne
  | cons l rest => simp [renderFrom]

theorem renderFrom_no_nl (n : Nat) (ls : List String)
    (h : ∀ l ∈ ls, '\n' ∉ l.data) :
    ∀ r ∈ renderFrom n ls, '\n' ∉ r.data := by
  induction ls generalizing n with
  | nil => intro r hr; simp [renderFrom] at hr
  | cons l rest ih =>
    intro r hr
    rcases List.mem_cons.mp hr with h1 | h1
    · subst h1
      exact gutterL_no_nl n l.data (h l (List.mem_cons_self l rest))
    · exact ih (n + 1) (fun x hx => h x (List.mem_cons_of_mem l hx)) r h1

theorem map_strip_renderFrom (n : Nat) (ls : List String) :
    (renderFrom n ls).map (fun l => String.mk (stripGutter l.data)) = ls := by
  induction ls generalizing n with
  | nil => rfl
  | cons l rest ih =>
    simp only [renderFrom, List.map_cons]
    rw [ih (n + 1)]
    have : stripGutter (gutterStr n l).data = l.data := stripGutter_gutterL n l.data
    rw [this, String.mk_data]

/-- C7 (amended): for every text of at most 2000 lines (the default read
limit), writing it and reading it back with default offset and limit yields a
rendering whose gutter-stripped lines joined with newlines reproduce the text
byte-for-byte. -/
theorem write_read_roundtrip_bounded
    (st : StateBackend) (path t : String)
    (hv : _validate_path path = none)
    (hlen : (splitLines t).length ≤ 2000) :
    stripJoin ((st.write path t).1.read path 0 2000) = t := by
  have hw : (st.write path t).1
      = ⟨insertStore st.files (_normalize_path path) (splitLines t)⟩ := by
    simp [StateBackend.write, hv]
  rw [hw]
  have hlook : alookup (insertStore st.files (_normalize_path path) (splitLines t))
      (_normalize_path path) = some (splitLines t) :=
    alookup_insertStore_self _ _ _
  have hne := splitLines_ne_nil t
  have hpos : 0 < (splitLines t).length := List.length_pos.mpr hne
  have hread : StateBackend.read ⟨insertStore st.files (_normalize_path path) (splitLines t)⟩
      path 0 2000 = joinLines (renderFrom 1 (splitLines t)) := by
    simp only [StateBackend.read, hv, hlook]
    rw [if_neg (by omega)]
    rw [List.drop_zero, List.take_of_length_le hlen]
    simp
  rw [hread]
  unfold stripJoin
  rw [splitLines_joinLines (renderFrom 1 (splitLines t))
    (renderFrom_ne_nil 1 _ hne)
    (renderFrom_no_nl 1 _ (splitLines_no_nl t))]
  rw [map_strip_renderFrom 1 (splitLines t)]
  exact joinLines_splitLines t

/-- C7 witness: the two-line text `"Hello\nWorld"` round-trips. -/
theorem write_read_roundtrip_bounded_witness :
    _validate_path "/a/b.txt" = none
    ∧ (splitLines "Hello\nWorld").length ≤ 2000
    ∧ stripJoin (((StateBackend.mk []).write "/a/b.txt" "Hello\nWorld").1.read "/a/b.txt" 0 2000)
        = "Hello\nWorld" :=
  ⟨by decide, by decide,
   write_read_roundtrip_bounded (StateBackend.mk []) "/a/b.txt" "Hello\nWorld"
     (by decide) (by decide)⟩

theorem joinNl_append_singleton (L : List (List Char)) (x : List Char) (hne : L ≠ []) :
    joinNl (L ++ [x]) = joinNl L ++ '\n' :: x := by
  induction L with
  | nil => exact absurd rfl hne
  | cons l ls ih =>
    cases ls with
    | nil => rfl
    | cons l2 ls2 =>
      have h1 : (l :: l2 :: ls2) ++ [x] = l :: ((l2 :: ls2) ++ [x]) := rfl
      have h2 : (l2 :: ls2) ++ [x] = l2 :: (ls2 ++ [x]) := rfl
      rw [h1, h2, joinNl_cons_cons, ← h2, ih (by simp), joinNl_cons_cons]
      simp

theorem strEq_of_data (a b : String) (h : a.data = b.data) : a = b := by
  cases a
  cases b
  cases h
  rfl

theorem joinLines_concat (A : List String) (x : String) (hne : A ≠ []) :
    joinLines (A ++ [x]) = joinLines A ++ ("\n" ++ x) := by
  unfold joinLines
  have h1 : (A ++ [x]).map String.data = A.map String.data ++ [x.data] := by simp
  rw [h1, joinNl_append_singleton _ _ (by simpa using hne)]
  apply strEq_of_data
  have h3 : ("\n" : String).data = ['\n'] := rfl
  simp [strData_append, h3]

theorem take_min_replicate (a : String) (n m : Nat) :
    (List.replicate m a).take n = List.replicate (min n m) a := by
  induction n generalizing m with
  | zero => simp
  | succ k ih =>
    cases m with
    | zero => simp
    | succ j =>
      simp only [List.replicate_succ, List.take_succ_cons, ih, Nat.succ_min_succ]

theorem replicate_string_ne_nil (n : Nat) (a : String) (hn : n ≠ 0) :
    List.replicate n a ≠ [] := by
  intro h
  have := congrArg List.length h
  simp at this
  exact hn this

theorem replicate_a_no_nl (n : Nat) : ∀ l ∈ List.replicate n "a", '\n' ∉ l.data := by
  intro l hl
  rw [List.eq_of_mem_replicate hl]
  decide

/-- C7 counterexample: a 2001-line text is truncated by the default read
limit of 2000 lines, so the gutter-stripped, re-joined rendering differs from
the original text. -/
theorem write_read_roundtrip_counterexample :
    stripJoin (((StateBackend.mk []).write "/big"
        (joinLines (List.replicate 2001 "a"))).1.read "/big" 0 2000)
      ≠ joinLines (List.replicate 2001 "a") := by
  have hv : _validate_path "/big" = none := by decide
  have hnerep : (List.replicate 2001 "a" : List String) ≠ [] :=
    replicate_string_ne_nil 2001 "a" (by omega)
  have hsplitt : splitLines (joinLines (List.replicate 2001 "a")) = List.replicate 2001 "a" :=
    splitLines_joinLines _ hnerep (replicate_a_no_nl 2001)
  have hw : ((StateBackend.mk []).write "/big" (joinLines (List.replicate 2001 "a"))).1
      = ⟨insertStore [] (_normalize_path "/big")
          (splitLines (joinLines (List.replicate 2001 "a")))⟩ := by
    simp [StateBackend.write, hv]
  rw [hsplitt] at hw
  have hlook := alookup_insertStore_self ([] : List (String × FileLines))
    (_normalize_path "/big") (List.replicate 2001 "a")
  have hread : (StateBackend.mk (insertStore [] (_normalize_path "/big")
        (List.replicate 2001 "a"))).read "/big" 0 2000
      = joinLines (renderFrom 1 (List.replicate 2000 "a"))
          ++ ("\n... (" ++ (natToStr 1 ++ " more lines)")) := by
    simp only [StateBackend.read, hv, hlook]
    rw [List.length_replicate, if_neg (by omega)]
    rw [List.drop_zero, take_min_replicate]
    have hmin : min 2000 2001 = 2000 := by omega
    rw [hmin, List.length_replicate]
    rw [if_neg (by omega)]
  rw [hw, hread]
  have hnote : ("\n... (" ++ (natToStr 1 ++ " more lines)"))
      = "\n" ++ ("... (" ++ (natToStr 1 ++ " more lines)")) := by decide
  rw [hnote, ← joinLines_concat _ _ (renderFrom_ne_nil 1 _ (replicate_string_ne_nil 2000 "a" (by omega)))]
  have hXnl : ∀ l ∈ renderFrom 1 (List.replicate 2000 "a")
      ++ ["... (" ++ (natToStr 1 ++ " more lines)")], '\n' ∉ l.data := by
    intro l hl
    rcases List.mem_append.mp hl with h | h
    · exact renderFrom_no_nl 1 _ (replicate_a_no_nl 2000) l h
    · simp only [List.mem_singleton] at h
      subst h
      decide
  have hXne : renderFrom 1 (List.replicate 2000 "a")
      ++ ["... (" ++ (natToStr 1 ++ " more lines)")] ≠ [] := by simp
  intro heq
  unfold stripJoin at heq
  rw [splitLines_joinLines _ hXne hXnl] at heq
  rw [List.map_append, map_strip_renderFrom] at heq
  have hstripnote : (["... (" ++ (natToStr 1 ++ " more lines)")].map
      (fun l => String.mk (stripGutter l.data))) = [""] := by decide
  rw [hstripnote] at heq
  have h2001 : (List.replicate 2001 "a" : List String)
      = List.replicate 2000 "a" ++ ["a"] := by
    have : (2001 : Nat) = 2000 + 1 := by norm_num
    rw [this, List.replicate_succ']
  rw [h2001] at heq
  have hlists := joinLines_inj (by simp) (by simp)
    (by
      intro l hl
      rcases List.mem_append.mp hl with h | h
      · exact replicate_a_no_nl 2000 l h
      · simp only [List.mem_singleton] at h
        subst h
        decide)
    (by
      intro l hl
      rcases List.mem_append.mp hl with h | h
      · exact replicate_a_no_nl 2000 l h
      · simp only [List.mem_singleton] at h
        subst h
        decide)
    heq
  have := List.append_cancel_left hlists
  simp at this

/-- C1 counterexample: with `/special/file.txt` stored in the routed backend,
the composite read of the full path succeeds while reading the
spec-rewritten remainder `"/file.txt"` against the routed backend does not
(mirroring `test_read_from_routed_backend`); and a composite write of
`/skills/x` stores the record under `/skills/x` in the routed backend,
not under `/x`. -/
theorem composite_dispatch_strip_counterexample :
    (CompositeBackend.mk (StateBackend.mk [])
        [("/special/", StateBackend.mk [("/special/file.txt", ["special content"])])]).read
        "/special/file.txt" 0 2000
      ≠ (StateBackend.mk [("/special/file.txt", ["special content"])]).read
        (specRewrittenPath "/special/" "/special/file.txt") 0 2000
    ∧ ((CompositeBackend.mk (StateBackend.mk [])
        [("/skills/", StateBackend.mk [])]).write "/skills/x" "A").1.routes
      = [("/skills/", StateBackend.mk [("/skills/x", ["A"])])]
    ∧ alookup (StateBackend.mk [("/skills/x", ["A"])]).files "/x" = none :=
  ⟨by decide, by decide, by decide⟩

/-- C1 (amended): dispatching a read, write or edit on a path matched by a
route delegates to the routed backend with the path unmodified, so the
observable behavior equals the same operation on the same path performed
directly against that backend (the write also records the updated routed
backend in the route table). -/
theorem composite_dispatch_same_path
    (c : CompositeBackend) (p r : String) (b : StateBackend)
    (h : routeFor c.routes p = some (r, b))
    (offset limit : Nat) (content old_string new_string : String) (ra : Bool) :
    c.read p offset limit = b.read p offset limit
    ∧ (c.write p content).2 = (b.write p content).2
    ∧ (c.write p content).1.routes = updRoutes c.routes r (b.write p content).1
    ∧ (c.write p content).1.default = c.default
    ∧ (c.edit p old_string new_string ra).2 = (b.edit p old_string new_string ra).2 := by
  refine ⟨?_, ?_, ?_, ?_, ?_⟩
  all_goals simp [CompositeBackend.read, CompositeBackend.write, CompositeBackend.edit, h]

/-- C1 witness: the route table of the counterexample scenario. -/
theorem composite_dispatch_same_path_witness :
    routeFor [("/special/", StateBackend.mk [("/special/file.txt", ["special content"])])]
        "/special/file.txt"
      = some ("/special/", StateBackend.mk [("/special/file.txt", ["special content"])])
    ∧ ((CompositeBackend.mk (StateBackend.mk [])
          [("/special/", StateBackend.mk [("/special/file.txt", ["special content"])])]).read
          "/special/file.txt" 0 2000
        = (StateBackend.mk [("/special/file.txt", ["special content"])]).read
          "/special/file.txt" 0 2000
      ∧ ((CompositeBackend.mk (StateBackend.mk [])
          [("/special/", StateBackend.mk [("/special/file.txt", ["special content"])])]).write
          "/special/file.txt" "x").2
        = ((StateBackend.mk [("/special/file.txt", ["special content"])]).write
          "/special/file.txt" "x").2
      ∧ ((CompositeBackend.mk (StateBackend.mk [])
          [("/special/", StateBackend.mk [("/special/file.txt", ["special content"])])]).write
          "/special/file.txt" "x").1.routes
        = updRoutes [("/special/", StateBackend.mk [("/special/file.txt", ["special content"])])]
            "/special/"
            ((StateBackend.mk [("/special/file.txt", ["special content"])]).write
              "/special/file.txt" "x").1
      ∧ ((CompositeBackend.mk (StateBackend.mk [])
          [("/special/", StateBackend.mk [("/special/file.txt", ["special content"])])]).write
          "/special/file.txt" "x").1.default
        = (CompositeBackend.mk (StateBackend.mk [])
            [("/special/", StateBackend.mk [("/special/file.txt", ["special content"])])]).default
      ∧ ((CompositeBackend.mk (StateBackend.mk [])
          [("/special/", StateBackend.mk [("/special/file.txt", ["special content"])])]).edit
          "/special/file.txt" "special" "plain" false).2
        = ((StateBackend.mk [("/special/file.txt", ["special content"])]).edit
          "/special/file.txt" "special" "plain" false).2) :=
  ⟨by decide,
   composite_dispatch_same_path
     (CompositeBackend.mk (StateBackend.mk [])
       [("/special/", StateBackend.mk [("/special/file.txt", ["special content"])])])
     "/special/file.txt" "/special/"
     (StateBackend.mk [("/special/file.txt", ["special content"])])
     (by decide) 0 2000 "x" "special" "plain" false⟩

theorem mem_grepContrib (b : StateBackend) (pattern : String) (m : GrepMatch) :
    m ∈ grepContrib b pattern
      ↔ ∃ ms2, b.grep_raw pattern none = .found ms2 ∧ m ∈ ms2 := by
  unfold grepContrib
  cases h : b.grep_raw pattern none with
  | found ms => simp [h]
  | error e => simp [h]

/-- C2 counterexample: with the pattern `"[invalid"`, every consulted backend
(the default and the single route, both empty StateBackends) returns the
invalid-regex error string, yet the composite root grep returns the empty
match list rather than an error string. -/
theorem composite_grep_all_error_counterexample :
    (StateBackend.mk []).grep_raw "[invalid" none
        = GrepResult.error "Error: Invalid regex pattern: [invalid"
    ∧ (CompositeBackend.mk (StateBackend.mk [])
        [("/special/", StateBackend.mk [])]).grep_raw "[invalid" (some "/")
      = GrepResult.found [] :=
  ⟨by decide, by decide⟩

/-- C2 (amended): a composite root grep (path absent, empty, or `/`) always
returns a match list, never an error string; a match is in the result exactly
when some consulted backend (the default or a route) returns it among its
matches, so error returns contribute nothing and do not abort the query —
even when every consulted backend errors. -/
theorem composite_grep_root_merges
    (c : CompositeBackend) (pattern : String) (path : Option String)
    (hroot : path = none ∨ path = some "" ∨ path = some "/") :
    ∃ ms, c.grep_raw pattern path = .found ms
      ∧ ∀ m, m ∈ ms ↔ ∃ b, b ∈ c.default :: c.routes.map Prod.snd
          ∧ ∃ ms2, b.grep_raw pattern none = .found ms2 ∧ m ∈ ms2 := by
  have hres : c.grep_raw pattern path
      = .found (grepContrib c.default pattern
          ++ (c.routes.map (fun rb => grepContrib rb.2 pattern)).flatten) := by
    rcases hroot with h | h | h
    all_goals subst h
    all_goals simp [CompositeBackend.grep_raw]
  refine ⟨_, hres, fun m => ?_⟩
  constructor
  · intro hm
    rcases List.mem_append.mp hm with h | h
    · exact ⟨c.default, List.mem_cons_self _ _, (mem_grepContrib _ _ _).mp h⟩
    · rcases List.mem_flatten.mp h with ⟨l, hl, hml⟩
      rcases List.mem_map.mp hl with ⟨rb, hrb, hrbl⟩
      subst hrbl
      exact ⟨rb.2, List.mem_cons_of_mem _ (List.mem_map_of_mem Prod.snd hrb),
        (mem_grepContrib _ _ _).mp hml⟩
  · intro ⟨b, hb, hms⟩
    rcases List.mem_cons.mp hb with h | h
    · subst h
      exact List.mem_append.mpr (Or.inl ((mem_grepContrib _ _ _).mpr hms))
    · rcases List.mem_map.mp h with ⟨rb, hrb, hrbb⟩
      subst hrbb
      refine List.mem_append.mpr (Or.inr (List.mem_flatten.mpr
        ⟨grepContrib rb.2 pattern, ?_, (mem_grepContrib _ _ _).mpr hms⟩))
      exact List.mem_map_of_mem (fun rb => grepContrib rb.2 pattern) hrb

/-- C2 witness: the grep-aggregation scenario of the spec (§8 scenario 4). -/
theorem composite_grep_root_merges_witness :
    ((some "/" : Option String) = none ∨ (some "/" : Option String) = some ""
      ∨ (some "/" : Option String) = some "/")
    ∧ ∃ ms, (CompositeBackend.mk (StateBackend.mk [("/a.txt", ["hi"])])
          [("/skills/", StateBackend.mk [("/b.txt", ["hi"])])]).grep_raw "hi" (some "/")
        = .found ms
      ∧ ∀ m, m ∈ ms ↔ ∃ b, b ∈ (StateBackend.mk [("/a.txt", ["hi"])])
            :: ([("/skills/", StateBackend.mk [("/b.txt", ["hi"])])].map Prod.snd)
          ∧ ∃ ms2, b.grep_raw "hi" none = .found ms2 ∧ m ∈ ms2 :=
  ⟨Or.inr (Or.inr rfl),
   composite_grep_root_merges
     (CompositeBackend.mk (StateBackend.mk [("/a.txt", ["hi"])])
       [("/skills/", StateBackend.mk [("/b.txt", ["hi"])])])
     "hi" (some "/") (Or.inr (Or.inr rfl))⟩

theorem routeFor_cons_of_none (r1 : String) (b1 : StateBackend)
    (rest : List (String × StateBackend)) (p : String)
    (hr : routeFor rest p = none) :
    routeFor ((r1, b1) :: rest) p
      = if routeMatches r1 p = true then some (r1, b1) else none := by
  simp only [routeFor, hr]

theorem routeFor_cons_of_some (r1 : String) (b1 : StateBackend)
    (rest : List (String × StateBackend)) (p r2 : String) (b2 : StateBackend)
    (hr : routeFor rest p = some (r2, b2)) :
    routeFor ((r1, b1) :: rest) p
      = if routeMatches r1 p = true ∧ r2.length < r1.length
        then some (r1, b1) else some (r2, b2) := by
  simp only [routeFor, hr]

theorem routeFor_none (routes : List (String × StateBackend)) (p : String)
    (h : routeFor routes p = none) :
    ∀ r2 b2, (r2, b2) ∈ routes → routeMatches r2 p = false := by
  induction routes with
  | nil => intro r2 b2 hmem; simp at hmem
  | cons rb rest ih =>
    obtain ⟨r1, b1⟩ := rb
    intro r2 b2 hmem
    cases hr : routeFor rest p with
    | none =>
      rw [routeFor_cons_of_none r1 b1 rest p hr] at h
      by_cases hm : routeMatches r1 p = true
      · rw [if_pos hm] at h
        exact absurd h (by simp)
      · rcases List.mem_cons.mp hmem with h1 | h1
        · cases h1
          exact Bool.eq_false_iff.mpr (fun hc => hm hc)
        · exact ih hr r2 b2 h1
    | some rb2 =>
      obtain ⟨r3, b3⟩ := rb2
      rw [routeFor_cons_of_some r1 b1 rest p r3 b3 hr] at h
      by_cases hc : routeMatches r1 p = true ∧ r3.length < r1.length
      · rw [if_pos hc] at h
        exact absurd h (by simp)
      · rw [if_neg hc] at h
        exact absurd h (by simp)

/-- C3 counterexample: the route table `{"/": S}` overlaps the whole tree by
the spec's own criterion, yet the composite is constructed without any error
and its `ls_info("/")` operates normally (mirroring
`test_ls_info_root_with_empty_prefix`). -/
theorem composite_overlap_accepted_counterexample :
    routesOverlap [("/", StateBackend.mk [])] = true
    ∧ (CompositeBackend.mk (StateBackend.mk []) [("/", StateBackend.mk [])]).ls_info "/"
      = [⟨"", "/", true, none⟩] :=
  ⟨by decide, by decide⟩

/-- C3 (amended): the composite performs no overlap validation — every route
table, overlapping or not, yields a working backend — and dispatch stays
deterministic by longest-prefix match: a found route matches the path and is
at least as long as every matching route in the table. -/
theorem routeFor_longest_match
    (routes : List (String × StateBackend)) (p r : String) (b : StateBackend)
    (h : routeFor routes p = some (r, b)) :
    (r, b) ∈ routes ∧ routeMatches r p = true
    ∧ ∀ r2 b2, (r2, b2) ∈ routes → routeMatches r2 p = true → r2.length ≤ r.length := by
  induction routes generalizing r b with
  | nil => simp [routeFor] at h
  | cons rb rest ih =>
    obtain ⟨r1, b1⟩ := rb
    cases hr : routeFor rest p with
    | none =>
      rw [routeFor_cons_of_none r1 b1 rest p hr] at h
      by_cases hm : routeMatches r1 p = true
      · rw [if_pos hm] at h
        injection h with h
        injection h with h1 h2
        subst h1
        subst h2
        refine ⟨List.mem_cons_self _ _, hm, ?_⟩
        intro r2 b2 hmem hm2
        rcases List.mem_cons.mp hmem with h1 | h1
        · cases h1
          exact le_rfl
        · rw [routeFor_none rest p hr r2 b2 h1] at hm2
          exact absurd hm2 (by simp)
      · rw [if_neg hm] at h
        exact absurd h (by simp)
    | some rb2 =>
      obtain ⟨r2', b2'⟩ := rb2
      rw [routeFor_cons_of_some r1 b1 rest p r2' b2' hr] at h
      obtain ⟨hmem2, hm2, hmax2⟩ := ih r2' b2' hr
      by_cases hcond : routeMatches r1 p = true ∧ r2'.length < r1.length
      · rw [if_pos hcond] at h
        injection h with h
        injection h with h1 hb1
        subst h1
        subst hb1
        refine ⟨List.mem_cons_self _ _, hcond.1, ?_⟩
        intro r3 b3 hmem hm3
        rcases List.mem_cons.mp hmem with h1 | h1
        · cases h1
          exact le_rfl
        · exact le_trans (hmax2 r3 b3 h1 hm3) (le_of_lt hcond.2)
      · rw [if_neg hcond] at h
        injection h with h
        injection h with h1 hb1
        subst h1
        subst hb1
        refine ⟨List.mem_cons_of_mem _ hmem2, hm2, ?_⟩
        intro r3 b3 hmem hm3
        rcases List.mem_cons.mp hmem with h1 | h1
        · cases h1
          by_cases hlt : r2'.length < r1.length
          · exact absurd ⟨hm3, hlt⟩ hcond
          · omega
        · exact hmax2 r3 b3 h1 hm3

/-- C3 witness: an overlapping route table on which lookup still picks the
longest matching prefix. -/
theorem routeFor_longest_match_witness :
    routeFor [("/a/", StateBackend.mk []), ("/a/b/", StateBackend.mk [("/x", ["y"])])] "/a/b/c"
      = some ("/a/b/", StateBackend.mk [("/x", ["y"])])
    ∧ (("/a/b/", StateBackend.mk [("/x", ["y"])])
        ∈ [("/a/", StateBackend.mk []), ("/a/b/", StateBackend.mk [("/x", ["y"])])]
      ∧ routeMatches "/a/b/" "/a/b/c" = true
      ∧ ∀ r2 b2, (r2, b2) ∈ [("/a/", StateBackend.mk []),
            ("/a/b/", StateBackend.mk [("/x", ["y"])])]
          → routeMatches r2 "/a/b/c" = true → r2.length ≤ "/a/b/".length) :=
  ⟨by decide,
   routeFor_longest_match [("/a/", StateBackend.mk []), ("/a/b/", StateBackend.mk [("/x", ["y"])])]
     "/a/b/c" "/a/b/" (StateBackend.mk [("/x", ["y"])]) (by decide)⟩

/-- C8: the todo system prompt always contains the stable guidance paragraph
(also when the todo list is empty), the status icons are `[x]` completed,
`[*]` in_progress and `[ ]` pending, and when at least one todo exists the
prompt also contains the `## Current Todos` heading and a `- {icon} {content}`
line for every todo. -/
theorem todo_system_prompt_sections (deps : DeepAgentDeps) :
    strContains TODO_SYSTEM_PROMPT (get_todo_system_prompt deps)
    ∧ (statusIcon TodoStatus.completed = "[x]"
      ∧ statusIcon TodoStatus.in_progress = "[*]"
      ∧ statusIcon TodoStatus.pending = "[ ]")
    ∧ (deps.todos ≠ [] →
        strContains "## Current Todos" (get_todo_system_prompt deps)
        ∧ ∀ t ∈ deps.todos,
            strContains ("- " ++ (statusIcon t.status ++ (" " ++ t.content)))
              (get_todo_system_prompt deps)) := by
  by_cases hempty : deps.todos = []
  · refine ⟨?_, ⟨rfl, rfl, rfl⟩, fun hne => absurd hempty hne⟩
    unfold get_todo_system_prompt
    rw [if_pos hempty]
    exact substrB_of_isPrefixOf (isPrefixOf_self _)
  · have hform : get_todo_system_prompt deps
        = joinLines ([TODO_SYSTEM_PROMPT, "", "## Current Todos"]
            ++ deps.todos.map todoLine) := by
      unfold get_todo_system_prompt
      rw [if_neg hempty]
    refine ⟨?_, ⟨rfl, rfl, rfl⟩, fun _ => ⟨?_, ?_⟩⟩
    · rw [hform]
      exact mem_strContains_joinLines _ _ (by simp)
    · rw [hform]
      exact mem_strContains_joinLines _ _ (by simp)
    · intro t ht
      rw [hform]
      exact mem_strContains_joinLines _ _
        (List.mem_append.mpr (Or.inr (List.mem_map_of_mem todoLine ht)))

/-- C8 witness: a three-todo list exercising every icon. -/
theorem todo_system_prompt_sections_witness :
    ((⟨StateBackend.mk [], [⟨"Task 1", TodoStatus.completed, "Completing task 1"⟩,
        ⟨"Task 2", TodoStatus.in_progress, "Working on task 2"⟩,
        ⟨"Task 3", TodoStatus.pending, "Starting task 3"⟩]⟩ : DeepAgentDeps).todos ≠ [])
    ∧ (⟨"Task 2", TodoStatus.in_progress, "Working on task 2"⟩ : Todo)
        ∈ (⟨StateBackend.mk [], [⟨"Task 1", TodoStatus.completed, "Completing task 1"⟩,
            ⟨"Task 2", TodoStatus.in_progress, "Working on task 2"⟩,
            ⟨"Task 3", TodoStatus.pending, "Starting task 3"⟩]⟩ : DeepAgentDeps).todos
    ∧ strContains TODO_SYSTEM_PROMPT (get_todo_system_prompt
        ⟨StateBackend.mk [], [⟨"Task 1", TodoStatus.completed, "Completing task 1"⟩,
          ⟨"Task 2", TodoStatus.in_progress, "Working on task 2"⟩,
          ⟨"Task 3", TodoStatus.pending, "Starting task 3"⟩]⟩)
    ∧ strContains "## Current Todos" (get_todo_system_prompt
        ⟨StateBackend.mk [], [⟨"Task 1", TodoStatus.completed, "Completing task 1"⟩,
          ⟨"Task 2", TodoStatus.in_progress, "Working on task 2"⟩,
          ⟨"Task 3", TodoStatus.pending, "Starting task 3"⟩]⟩)
    ∧ strContains ("- " ++ (statusIcon TodoStatus.in_progress ++ (" " ++ "Task 2")))
        (get_todo_system_prompt
          ⟨StateBackend.mk [], [⟨"Task 1", TodoStatus.completed, "Completing task 1"⟩,
            ⟨"Task 2", TodoStatus.in_progress, "Working on task 2"⟩,
            ⟨"Task 3", TodoStatus.pending, "Starting task 3"⟩]⟩) := by
  refine ⟨by decide, by decide, ?_, ?_, ?_⟩
  · exact (todo_system_prompt_sections
      ⟨StateBackend.mk [], [⟨"Task 1", TodoStatus.completed, "Completing task 1"⟩,
        ⟨"Task 2", TodoStatus.in_progress, "Working on task 2"⟩,
        ⟨"Task 3", TodoStatus.pending, "Starting task 3"⟩]⟩).1
  · exact ((todo_system_prompt_sections
      ⟨StateBackend.mk [], [⟨"Task 1", TodoStatus.completed, "Completing task 1"⟩,
        ⟨"Task 2", TodoStatus.in_progress, "Working on task 2"⟩,
        ⟨"Task 3", TodoStatus.pending, "Starting task 3"⟩]⟩).2.2 (by decide)).1
  · exact ((todo_system_prompt_sections
      ⟨StateBackend.mk [], [⟨"Task 1", TodoStatus.completed, "Completing task 1"⟩,
        ⟨"Task 2", TodoStatus.in_progress, "Working on task 2"⟩,
        ⟨"Task 3", TodoStatus.pending, "Starting task 3"⟩]⟩).2.2 (by decide)).2
      ⟨"Task 2", TodoStatus.in_progress, "Working on task 2"⟩ (by decide)

theorem skillOfDir_some {d : SkillDirEntry} {s : Skill}
    (h : skillOfDir d = some s) :
    ∃ text, d.skillMd = some text
      ∧ alookup (parse_skill_md text).1 "name" = some (FMValue.str s.name)
      ∧ s.path = d.path := by
  obtain ⟨p, md, res⟩ := d
  cases md with
  | none => exact absurd h (by simp [skillOfDir])
  | some text =>
    refine ⟨text, rfl, ?_⟩
    cases hn : alookup (parse_skill_md text).1 "name" with
    | none => simp [skillOfDir, hn] at h
    | some v =>
      cases v with
      | str nm =>
        simp only [skillOfDir, hn] at h
        injection h with h
        subst h
        exact ⟨rfl, rfl⟩
      | list items => simp [skillOfDir, hn] at h

/-- C9: a skill subdirectory whose `SKILL.md` frontmatter lacks the `name`
key contributes no record to `discover_skills`, and every returned Skill
takes its name from its own frontmatter (and its path from its directory). -/
theorem discover_skills_name_required
    (d : SkillDirEntry) (dirs : List SkillDirEntry) (text : String)
    (hmd : d.skillMd = some text)
    (hname : alookup (parse_skill_md text).1 "name" = none) :
    discover_skills (d :: dirs) = discover_skills dirs
    ∧ ∀ s ∈ discover_skills dirs, ∃ d2 ∈ dirs, ∃ text2, d2.skillMd = some text2
        ∧ alookup (parse_skill_md text2).1 "name" = some (FMValue.str s.name)
        ∧ s.path = d2.path := by
  constructor
  · unfold discover_skills
    apply List.filterMap_cons_none
    simp [skillOfDir, hmd, hname]
  · intro s hs
    rcases List.mem_filterMap.mp hs with ⟨d2, hd2, hsome⟩
    rcases skillOfDir_some hsome with ⟨text2, hmd2, hn2, hp2⟩
    exact ⟨d2, hd2, text2, hmd2, hn2, hp2⟩

/-- C9 witness: a nameless skill directory is skipped while a named sibling
is discovered (mirroring `test_discover_skips_skill_without_name`). -/
theorem discover_skills_name_required_witness :
    (⟨"/skills/no-name", some "---\ndescription: No name skill\n---\n\nInstructions.\n",
        []⟩ : SkillDirEntry).skillMd
      = some "---\ndescription: No name skill\n---\n\nInstructions.\n"
    ∧ alookup (parse_skill_md "---\ndescription: No name skill\n---\n\nInstructions.\n").1
        "name" = none
    ∧ (discover_skills
        [⟨"/skills/no-name", some "---\ndescription: No name skill\n---\n\nInstructions.\n", []⟩,
         ⟨"/skills/my-skill", some "---\nname: my-skill\n---\n\nBody.\n", ["template.py"]⟩]
      = discover_skills
        [⟨"/skills/my-skill", some "---\nname: my-skill\n---\n\nBody.\n", ["template.py"]⟩]
      ∧ ∀ s ∈ discover_skills
          [⟨"/skills/my-skill", some "---\nname: my-skill\n---\n\nBody.\n", ["template.py"]⟩],
          ∃ d2 ∈ [(⟨"/skills/my-skill", some "---\nname: my-skill\n---\n\nBody.\n",
              ["template.py"]⟩ : SkillDirEntry)],
            ∃ text2, d2.skillMd = some text2
              ∧ alookup (parse_skill_md text2).1 "name" = some (FMValue.str s.name)
              ∧ s.path = d2.path) :=
  ⟨rfl, by decide,
   discover_skills_name_required
     ⟨"/skills/no-name", some "---\ndescription: No name skill\n---\n\nInstructions.\n", []⟩
     [⟨"/skills/my-skill", some "---\nname: my-skill\n---\n\nBody.\n", ["template.py"]⟩]
     "---\ndescription: No name skill\n---\n\nInstructions.\n" rfl (by decide)⟩

/-- C10: with the `execute` key absent from `interrupt_on`,
`require_execute_approval` defaults to true, whereas with `write_file` and
`edit_file` absent `require_write_approval` defaults to false — the two
defaults are asymmetric. -/
theorem create_deep_agent_approval_defaults
    (interrupt_on : List (String × Bool))
    (hexec : alookup interrupt_on "execute" = none) :
    (create_deep_agent_flags interrupt_on).require_execute_approval = true
    ∧ (alookup interrupt_on "write_file" = none →
        alookup interrupt_on "edit_file" = none →
        (create_deep_agent_flags interrupt_on).require_write_approval = false) := by
  constructor
  · simp [create_deep_agent_flags, interruptGet, hexec]
  · intro h1 h2
    simp [create_deep_agent_flags, interruptGet, h1, h2]

/-- C10 witness: an `interrupt_on` map naming none of the three keys. -/
theorem create_deep_agent_approval_defaults_witness :
    alookup [("read_file", true)] "execute" = none
    ∧ ((create_deep_agent_flags [("read_file", true)]).require_execute_approval = true
      ∧ (alookup [("read_file", true)] "write_file" = none →
          alookup [("read_file", true)] "edit_file" = none →
          (create_deep_agent_flags [("read_file", true)]).require_write_approval = false)) :=
  ⟨by decide, create_deep_agent_approval_defaults [("read_file", true)] (by decide)⟩
